import Mathlib

/-!
Verification of the PunchPro time-tracking application (`src/App.tsx`,
`src/types.ts`, `src/services/geminiService.ts`) against its specification.

The TypeScript code is shallowly embedded: timestamps are integers
(milliseconds since the Unix epoch), JavaScript numbers that hold hour
totals are modelled as rationals with explicit decimal rounding
(`Number.prototype.toFixed` rounds half away from the smaller value,
i.e. half up), and the calendar-date string `"YYYY-MM-DD"` produced by
`Date.prototype.toISOString` is identified with its (UTC) day index
since 1970-01-01, a bijective identification on the relevant range.
`Array.prototype.sort` with the comparator `a.timestamp - b.timestamp`
is a stable ascending sort (ES2019), embedded as a stable insertion
sort by the non-strict `≤` on timestamps.
-/

namespace PunchPro

/-- The `'IN' | 'OUT'` union type of `PunchEntry.type` in `src/types.ts`. -/
inductive PunchType where
  | IN : PunchType
  | OUT : PunchType
deriving DecidableEq, Repr

/-- The `PunchEntry` interface of `src/types.ts`. -/
structure PunchEntry where
  id : String
  type : PunchType
  timestamp : Int
deriving DecidableEq, Repr

def msPerHour : Int := 1000 * 60 * 60

def msPerDay : Int := 86400000

/-- Calendar date of a timestamp as computed by
`new Date(ts).toISOString().split('T')[0]` in `src/App.tsx` line 61:
`toISOString` renders the instant in UTC, so the `YYYY-MM-DD` prefix is
the UTC day index `⌊ts / 86400000⌋` (floor division). -/
def dateOf (ts : Int) : Int := Int.fdiv ts msPerDay

/-- Comparator order of `[...punches].sort((a, b) => a.timestamp - b.timestamp)`
(`src/App.tsx` line 58). -/
def punchLE (a b : PunchEntry) : Prop := a.timestamp ≤ b.timestamp

instance : DecidableRel punchLE := fun a b =>
  inferInstanceAs (Decidable (a.timestamp ≤ b.timestamp))

instance : IsTotal PunchEntry punchLE :=
  ⟨fun a b => Int.le_total a.timestamp b.timestamp⟩

instance : IsTrans PunchEntry punchLE :=
  ⟨fun _ _ _ hab hbc => le_trans hab hbc⟩

/-- Stable ascending sort of the punch list, modelling
`[...punches].sort((a, b) => a.timestamp - b.timestamp)`. -/
def sortPunches (l : List PunchEntry) : List PunchEntry :=
  l.insertionSort punchLE

/-- One step of the grouping loop at `src/App.tsx` lines 60-66: the
`days` record keyed by date string, in key-insertion order (string keys
of the form `YYYY-MM-DD` are non-index keys, so `Object.values`
enumerates them in insertion order); a punch is appended to the bucket
of its date, creating the bucket at the end if absent. -/
def addToDays (days : List (Int × List PunchEntry)) (p : PunchEntry) :
    List (Int × List PunchEntry) :=
  match days with
  | [] => [(dateOf p.timestamp, [p])]
  | (d, ps) :: rest =>
      if dateOf p.timestamp = d then (d, ps ++ [p]) :: rest
      else (d, ps) :: addToDays rest p

/-- The `days` record after the `sortedPunches.forEach` grouping loop. -/
def groupByDay (l : List PunchEntry) : List (Int × List PunchEntry) :=
  l.foldl addToDays []

/-- One step of the per-day hour loop at `src/App.tsx` lines 73-80.
State is `(totalMs, startTime)`.  On `IN` the start is overwritten; on
`OUT` the guard is `p.type === 'OUT' && startTime`, where `startTime`
is *truthy*: both `null` and the number `0` fail the guard, so an open
start of exactly `0` makes the `OUT` a no-op. -/
def dayStep (s : Int × Option Int) (p : PunchEntry) : Int × Option Int :=
  match p.type with
  | .IN => (s.1, some p.timestamp)
  | .OUT =>
      match s.2 with
      | some st => if st = 0 then (s.1, some st) else (s.1 + (p.timestamp - st), none)
      | none => (s.1, none)

/-- Accumulated milliseconds of one day's bucket, including the
trailing in-progress credit of `src/App.tsx` lines 82-85: if the loop
ends with a truthy `startTime` and the day is the current (UTC) date of
`now`, `now - startTime` is added. -/
def dayTotalMs (now d : Int) (ps : List PunchEntry) : Int :=
  let s := ps.foldl dayStep (0, none)
  match s.2 with
  | some st => if st ≠ 0 ∧ d = dateOf now then s.1 + (now - st) else s.1
  | none => s.1

/-- Rounding to 2 decimal places, modelling
`parseFloat(x.toFixed(2))`: the nearest multiple of `1/100`, ties to
the larger value. -/
def round2 (q : ℚ) : ℚ := (⌊q * 100 + 1 / 2⌋ : ℚ) / 100

/-- Rounding to 1 decimal place, modelling `parseFloat(x.toFixed(1))`. -/
def round1 (q : ℚ) : ℚ := (⌊q * 10 + 1 / 2⌋ : ℚ) / 10

/-- Milliseconds to hours: `totalMs / (1000 * 60 * 60)`. -/
def msToHours (ms : Int) : ℚ := (ms : ℚ) / ((msPerHour : Int) : ℚ)

/-- The day's `totalHours` field: `parseFloat((totalMs / (1000 * 60 * 60)).toFixed(2))`. -/
def dayTotalHours (now d : Int) (ps : List PunchEntry) : ℚ :=
  round2 (msToHours (dayTotalMs now d ps))

/-- The `WorkDay` interface of `src/types.ts` (field `punches`). -/
structure WorkDay where
  date : Int
  punches : List PunchEntry
  totalHours : ℚ
deriving DecidableEq, Repr

/-- The `workDaysData` memo of `src/App.tsx` lines 54-91: group the
sorted punches by date, compute each day's hours, and return
`Object.values(days).reverse()`. -/
def workDaysData (now : Int) (punches : List PunchEntry) : List WorkDay :=
  ((groupByDay (sortPunches punches)).map
    (fun e => WorkDay.mk e.1 e.2 (dayTotalHours now e.1 e.2))).reverse

/-- The `'PUNCHED_IN' | 'PUNCHED_OUT'` status union of `src/types.ts`. -/
inductive Status where
  | PUNCHED_IN : Status
  | PUNCHED_OUT : Status
deriving DecidableEq, Repr

/-- The `currentStatus` memo of `src/App.tsx` lines 49-52. -/
def currentStatus (punches : List PunchEntry) : Status :=
  match punches with
  | [] => .PUNCHED_OUT
  | p :: _ => if p.type = .IN then .PUNCHED_IN else .PUNCHED_OUT

/-- The `DashboardStats` interface of `src/types.ts`. -/
structure DashboardStats where
  totalHoursThisWeek : ℚ
  averageDailyHours : ℚ
  lastPunch : Option PunchEntry
  status : Status
deriving DecidableEq, Repr

def weekMs : Int := 7 * 24 * 60 * 60 * 1000

/-- Epoch milliseconds of `new Date(d.date).getTime()` for a `YYYY-MM-DD`
string (`src/App.tsx` line 96): a date-only ISO string is interpreted
as *UTC* midnight by ECMA-262, i.e. `dayIndex * 86400000`. -/
def dateMsUTC (d : Int) : Int := d * msPerDay

/-- The `stats` memo of `src/App.tsx` lines 93-110. -/
def stats (now : Int) (punches : List PunchEntry) : DashboardStats :=
  let wds := workDaysData now punches
  let thisWeek := wds.filter (fun d => decide (now - dateMsUTC d.date < weekMs))
  let total := thisWeek.foldl (fun acc c => acc + c.totalHours) (0 : ℚ)
  let avg := if 0 < thisWeek.length then total / (thisWeek.length : ℚ) else (0 : ℚ)
  ⟨round1 total, round1 avg, punches.head?, currentStatus punches⟩

/-- Claim-side definition, following the spec's words for comparison
with `dateOf`: the calendar day index of a timestamp interpreted in a
local time zone `tz` minutes east of UTC. -/
def localDateOf (tz ts : Int) : Int := Int.fdiv (ts + tz * 60000) msPerDay

/-- Claim-side definition, following the spec's words for comparison
with `dateMsUTC`: epoch milliseconds of a day's *local* midnight in a
time zone `tz` minutes east of UTC. -/
def localMidnightMs (tz d : Int) : Int := d * msPerDay - tz * 60000

/-- Claim-side definition: the trailing-7-day filter of the spec,
measured from local midnight, for comparison with the filter inside
`stats`. -/
def thisWeekLocal (tz now : Int) (l : List PunchEntry) : List WorkDay :=
  (workDaysData now l).filter (fun d => decide (now - localMidnightMs tz d.date < weekMs))

/-- JSON values, modelling the serialized form at the `JSON.stringify` /
`JSON.parse` boundary of `src/App.tsx` lines 24-38 and of the Gemini
response.  The string layer of JSON is standard and lossless, so
serialization is modelled at the value level; numbers appearing in this
application are integers. -/
inductive Json where
  | null : Json
  | bool (b : Bool) : Json
  | num (n : Int) : Json
  | str (s : String) : Json
  | arr (elems : List Json) : Json
  | obj (fields : List (String × Json)) : Json

/-- Serialization of a `type` field value. -/
def punchTypeToJson : PunchType → Json
  | .IN => .str ("IN")
  | .OUT => .str ("OUT")

/-- Serialization of one `{id, type, timestamp}` record, as
`JSON.stringify` emits it (own enumerable fields in insertion order). -/
def punchToJson (p : PunchEntry) : Json :=
  .obj [("id", .str p.id), ("type", punchTypeToJson p.type), ("timestamp", .num p.timestamp)]

/-- Serialization of the whole punch list: `JSON.stringify(punches)`. -/
def punchesToJson (l : List PunchEntry) : Json := .arr (l.map punchToJson)

/-- Property access `j[k]` on a parsed JSON value. -/
def getField (j : Json) (k : String) : Option Json :=
  match j with
  | .obj fs => (fs.find? (fun f => decide (f.1 = k))).map (fun f => f.2)
  | _ => none

def asString : Json → Option String
  | .str s => some s
  | _ => none

def asInt : Json → Option Int
  | .num n => some n
  | _ => none

def jsonToPunchType : Json → Option PunchType
  | .str s => if s = "IN" then some .IN else if s = "OUT" then some .OUT else none
  | _ => none

/-- Reading one punch record back from its parsed JSON value. -/
def jsonToPunch (j : Json) : Option PunchEntry := do
  let i ← (getField j ("id")).bind asString
  let t ← (getField j ("type")).bind jsonToPunchType
  let ts ← (getField j ("timestamp")).bind asInt
  pure ⟨i, t, ts⟩

/-- Reading a list of punch records back from parsed JSON values. -/
def jsonArrToPunches : List Json → Option (List PunchEntry)
  | [] => some []
  | j :: rest => do
      let p ← jsonToPunch j
      let ps ← jsonArrToPunches rest
      pure (p :: ps)

/-- Reading the punch array back from its parsed JSON value. -/
def jsonToPunches : Json → Option (List PunchEntry)
  | .arr es => jsonArrToPunches es
  | _ => none

/-- Writing the list under the single storage key (`src/App.tsx` lines
36-38): `localStorage.setItem(STORAGE_KEY, JSON.stringify(punches))`.
The stored state is the serialized value under that key. -/
def persistPunches (l : List PunchEntry) : Option Json := some (punchesToJson l)

/-- Loading on startup (`src/App.tsx` lines 24-33): an absent key
leaves the state `[]`; a stored value is `JSON.parse`d, and a parse
failure is caught and leaves the state `[]`. -/
def loadPunches (stored : Option Json) : List PunchEntry :=
  match stored with
  | none => []
  | some j => (jsonToPunches j).getD []

/-- The fixed fallback `AIInsight` returned by the `catch` branch of
`getWorkInsights` (`src/services/geminiService.ts` lines 43-50), as a
JSON value. -/
def fallbackInsight : Json :=
  .obj [("summary", .str ("We couldn\u0027t generate insights at this moment. Keep up the good work!")),
        ("recommendations", .arr [.str ("Ensure you take regular breaks"),
                                  .str ("Log your punches consistently")]),
        ("productivityScore", .num 0)]

/-- Outcome of the `ai.models.generateContent` round-trip together with
the subsequent `JSON.parse(response.text || '{}')`: either something in
the `try` block threw (request failure, or `response.text` is not valid
JSON), or the parse succeeded with value `j`, or `response.text` was
empty/absent so the fallback text `'{}'` was parsed. -/
inductive ServiceOutcome where
  | throwErr : ServiceOutcome
  | okText (j : Json) : ServiceOutcome
  | okEmptyText : ServiceOutcome

/-- The `getWorkInsights` function of `src/services/geminiService.ts`:
the parsed result is returned as-is (`return result as AIInsight` — a
type cast, no validation); any exception is caught and replaced by the
fixed fallback. -/
def getWorkInsights (workData : List WorkDay) (outcome : ServiceOutcome) : Json :=
  match workData, outcome with
  | _, .throwErr => fallbackInsight
  | _, .okText j => j
  | _, .okEmptyText => .obj []

def isStringJson : Json → Bool
  | .str _ => true
  | _ => false

def isNumberJson : Json → Bool
  | .num _ => true
  | _ => false

def isStringArrayJson : Json → Bool
  | .arr es => es.all isStringJson
  | _ => false

/-- Claim-side definition, following the spec's words: the expected
inbound shape `{summary: string, recommendations: string[],
productivityScore: number}`. -/
def expectedInsightShape (j : Json) : Bool :=
  (((getField j ("summary")).map isStringJson).getD false) &&
  (((getField j ("recommendations")).map isStringArrayJson).getD false) &&
  (((getField j ("productivityScore")).map isNumberJson).getD false)

/-! Helper lemmas about the grouping record. -/

/-- Reading the bucket of key `d` out of the `days` record (`[]` when
the key is absent). -/
def bucket (d : Int) : List (Int × List PunchEntry) → List PunchEntry
  | [] => []
  | (d0, ps) :: rest => if d0 = d then ps else bucket d rest

lemma bucket_addToDays (d : Int) (days : List (Int × List PunchEntry)) (p : PunchEntry) :
    bucket d (addToDays days p) =
      bucket d days ++ (if dateOf p.timestamp = d then [p] else []) := by
  induction days with
  | nil =>
      by_cases h : dateOf p.timestamp = d <;> simp [bucket, addToDays, h]
  | cons e rest ih =>
      obtain ⟨d0, ps0⟩ := e
      by_cases h0 : dateOf p.timestamp = d0
      · by_cases hd : d0 = d
        · simp [bucket, addToDays, h0, hd]
        · have hpd : ¬ dateOf p.timestamp = d := by rw [h0]; exact hd
          simp [bucket, addToDays, h0, hd, hpd]
      · by_cases hd : d0 = d
        · have hpd : ¬ dateOf p.timestamp = d := fun hh => h0 (hh.trans hd.symm)
          simp [bucket, addToDays, h0, hd, hpd]
        · simp [bucket, addToDays, h0, hd, ih]

lemma bucket_foldl (d : Int) (l : List PunchEntry) :
    ∀ days, bucket d (l.foldl addToDays days) =
      bucket d days ++ l.filter (fun p => decide (dateOf p.timestamp = d)) := by
  induction l with
  | nil => intro days; simp
  | cons p rest ih =>
      intro days
      rw [List.foldl_cons, ih, bucket_addToDays]
      by_cases h : dateOf p.timestamp = d <;> simp [h, List.filter_cons]

lemma bucket_groupByDay (d : Int) (l : List PunchEntry) :
    bucket d (groupByDay l) = l.filter (fun p => decide (dateOf p.timestamp = d)) := by
  rw [groupByDay, bucket_foldl]; simp [bucket]

/-- Keys of the `days` record. -/
def dayKeys (days : List (Int × List PunchEntry)) : List Int :=
  days.map (fun e => e.1)

lemma dayKeys_addToDays (days : List (Int × List PunchEntry)) (p : PunchEntry) :
    dayKeys (addToDays days p) =
      if dateOf p.timestamp ∈ dayKeys days then dayKeys days
      else dayKeys days ++ [dateOf p.timestamp] := by
  induction days with
  | nil => simp [dayKeys, addToDays]
  | cons e rest ih =>
      obtain ⟨d0, ps0⟩ := e
      by_cases h0 : dateOf p.timestamp = d0
      · simp [dayKeys, addToDays, h0]
      · have h1 : dayKeys (addToDays ((d0, ps0) :: rest) p)
            = d0 :: dayKeys (addToDays rest p) := by
          simp [dayKeys, addToDays, h0]
        have hcond : (dateOf p.timestamp ∈ dayKeys ((d0, ps0) :: rest)) ↔
            (dateOf p.timestamp ∈ dayKeys rest) := by
          simp [dayKeys, h0]
        rw [h1, ih]
        by_cases hm : dateOf p.timestamp ∈ dayKeys rest
        · rw [if_pos hm, if_pos (hcond.2 hm)]; simp [dayKeys]
        · rw [if_neg hm, if_neg (fun hc => hm (hcond.1 hc))]
          simp [dayKeys]

lemma nodup_dayKeys_addToDays (days : List (Int × List PunchEntry)) (p : PunchEntry)
    (h : (dayKeys days).Nodup) : (dayKeys (addToDays days p)).Nodup := by
  rw [dayKeys_addToDays]
  by_cases hm : dateOf p.timestamp ∈ dayKeys days
  · simpa [hm] using h
  · simp [hm, List.nodup_append, h]

lemma nodup_dayKeys_groupByDay (l : List PunchEntry) :
    (dayKeys (groupByDay l)).Nodup := by
  rw [groupByDay]
  have h : ∀ days, (dayKeys days).Nodup → (dayKeys (l.foldl addToDays days)).Nodup := by
    induction l with
    | nil => intro days hd; simpa using hd
    | cons p rest ih =>
        intro days hd
        rw [List.foldl_cons]
        exact ih _ (nodup_dayKeys_addToDays days p hd)
  exact h [] (by simp [dayKeys])

lemma bucket_of_mem {d : Int} {ps : List PunchEntry}
    {days : List (Int × List PunchEntry)} (hnd : (dayKeys days).Nodup)
    (h : (d, ps) ∈ days) : bucket d days = ps := by
  induction days with
  | nil => cases h
  | cons e rest ih =>
      obtain ⟨d0, ps0⟩ := e
      rcases List.mem_cons.1 h with heq | hmem
      · obtain ⟨rfl, rfl⟩ := Prod.mk.injEq .. ▸ heq
        · simp [bucket]
      · have hd0 : d0 ≠ d := by
          intro hdd; subst hdd
          have : d0 ∈ dayKeys rest := by
            simpa [dayKeys] using List.mem_map_of_mem (fun e => e.1) hmem
          exact (List.nodup_cons.1 (by simpa [dayKeys] using hnd)).1 this
        simp only [bucket, if_neg hd0]
        exact ih (List.nodup_cons.1 (by simpa [dayKeys] using hnd)).2 hmem

lemma mem_groupByDay_eq_filter {l : List PunchEntry} {d : Int}
    {ps : List PunchEntry} (h : (d, ps) ∈ groupByDay l) :
    ps = l.filter (fun p => decide (dateOf p.timestamp = d)) := by
  rw [← bucket_groupByDay]
  exact (bucket_of_mem (nodup_dayKeys_groupByDay l) h).symm

lemma mem_of_bucket_ne_nil {d : Int} :
    ∀ {days : List (Int × List PunchEntry)}, bucket d days ≠ [] →
      (d, bucket d days) ∈ days := by
  intro days
  induction days with
  | nil => intro h; exact absurd rfl h
  | cons e rest ih =>
      obtain ⟨d0, ps0⟩ := e
      by_cases hd : d0 = d
      · subst hd; intro _; simp [bucket]
      · intro h
        rw [bucket, if_neg hd] at h ⊢
        exact List.mem_cons_of_mem _ (ih h)

/-- Every element of `workDaysData` carries the filtered bucket of its
date and the day-total computed from it. -/
lemma mem_workDaysData {now : Int} {l : List PunchEntry} {wd : WorkDay}
    (h : wd ∈ workDaysData now l) :
    wd.punches = (sortPunches l).filter (fun p => decide (dateOf p.timestamp = wd.date)) ∧
    wd.totalHours = dayTotalHours now wd.date wd.punches := by
  rw [workDaysData, List.mem_reverse, List.mem_map] at h
  obtain ⟨e, he, rfl⟩ := h
  exact ⟨mem_groupByDay_eq_filter (by simpa using he), rfl⟩

/-- Every punch of the input list lands in the work day of its (UTC)
date. -/
lemma workDay_mem_of_mem_punch {now : Int} {l : List PunchEntry} {p : PunchEntry}
    (hp : p ∈ l) :
    ∃ wd ∈ workDaysData now l, wd.date = dateOf p.timestamp ∧ p ∈ wd.punches := by
  have hps : p ∈ sortPunches l := ((List.perm_insertionSort punchLE l).mem_iff).2 hp
  have hf : p ∈ (sortPunches l).filter
      (fun q => decide (dateOf q.timestamp = dateOf p.timestamp)) :=
    List.mem_filter.2 ⟨hps, by simp⟩
  have hb : bucket (dateOf p.timestamp) (groupByDay (sortPunches l)) =
      (sortPunches l).filter (fun q => decide (dateOf q.timestamp = dateOf p.timestamp)) :=
    bucket_groupByDay _ _
  have hne : bucket (dateOf p.timestamp) (groupByDay (sortPunches l)) ≠ [] := by
    rw [hb]; exact List.ne_nil_of_mem hf
  have hmem := mem_of_bucket_ne_nil hne
  refine ⟨WorkDay.mk (dateOf p.timestamp)
      (bucket (dateOf p.timestamp) (groupByDay (sortPunches l)))
      (dayTotalHours now (dateOf p.timestamp)
        (bucket (dateOf p.timestamp) (groupByDay (sortPunches l)))), ?_, rfl, ?_⟩
  · rw [workDaysData, List.mem_reverse, List.mem_map]
    exact ⟨_, hmem, rfl⟩
  · rw [hb]; exact hf

/-! Helper lemmas about the per-day fold. -/

lemma sortPunches_pairwise (l : List PunchEntry) :
    (sortPunches l).Pairwise punchLE :=
  List.sorted_insertionSort punchLE l

lemma mem_sortPunches {l : List PunchEntry} {p : PunchEntry}
    (h : p ∈ sortPunches l) : p ∈ l :=
  ((List.perm_insertionSort punchLE l).mem_iff).1 h

/-- Along a timestamp-sorted day, the accumulated milliseconds never
decrease, and an open start can only be the timestamp of one of the
processed punches (or the initial state's). -/
lemma foldl_dayStep_aux :
    ∀ (ps : List PunchEntry) (acc : Int × Option Int),
      ps.Pairwise punchLE →
      (∀ s, acc.2 = some s → ∀ p ∈ ps, s ≤ p.timestamp) →
      acc.1 ≤ (ps.foldl dayStep acc).1 ∧
      (∀ s, (ps.foldl dayStep acc).2 = some s →
        acc.2 = some s ∨ ∃ p ∈ ps, p.timestamp = s) := by
  intro ps
  induction ps with
  | nil => intro acc _ _; exact ⟨le_refl _, fun s h => Or.inl h⟩
  | cons p rest ih =>
      intro acc hs hacc
      obtain ⟨hp_all, hrest⟩ := List.pairwise_cons.1 hs
      rw [List.foldl_cons]
      cases hpt : p.type with
      | IN =>
          have hstep : dayStep acc p = (acc.1, some p.timestamp) := by
            simp [dayStep, hpt]
          rw [hstep]
          have h2 : ∀ s, (some p.timestamp : Option Int) = some s →
              ∀ q ∈ rest, s ≤ q.timestamp := by
            intro s hs1 q hq
            obtain rfl : p.timestamp = s := Option.some.inj hs1
            exact hp_all q hq
          obtain ⟨ha, hb⟩ := ih (acc.1, some p.timestamp) hrest h2
          refine ⟨ha, fun s hres => ?_⟩
          rcases hb s hres with h | ⟨q, hq, hqs⟩
          · exact Or.inr ⟨p, List.mem_cons_self .., Option.some.inj h⟩
          · exact Or.inr ⟨q, List.mem_cons_of_mem _ hq, hqs⟩
      | OUT =>
          cases hacc2 : acc.2 with
          | none =>
              have hstep : dayStep acc p = (acc.1, none) := by
                simp [dayStep, hpt, hacc2]
              rw [hstep]
              obtain ⟨ha, hb⟩ := ih (acc.1, none) hrest (by simp)
              refine ⟨ha, fun s hres => ?_⟩
              rcases hb s hres with h | h
              · cases h
              · exact Or.inr (by
                  obtain ⟨q, hq, hqs⟩ := h
                  exact ⟨q, List.mem_cons_of_mem _ hq, hqs⟩)
          | some st =>
              by_cases hst : st = 0
              · have hstep : dayStep acc p = (acc.1, some st) := by
                  simp [dayStep, hpt, hacc2, hst]
                rw [hstep]
                have h2 : ∀ s, (some st : Option Int) = some s →
                    ∀ q ∈ rest, s ≤ q.timestamp := by
                  intro s hs1 q hq
                  obtain rfl : st = s := Option.some.inj hs1
                  exact hacc st hacc2 q (List.mem_cons_of_mem _ hq)
                obtain ⟨ha, hb⟩ := ih (acc.1, some st) hrest h2
                refine ⟨ha, fun s hres => ?_⟩
                rcases hb s hres with h | h
                · exact Or.inl (hacc2 ▸ h)
                · exact Or.inr (by
                    obtain ⟨q, hq, hqs⟩ := h
                    exact ⟨q, List.mem_cons_of_mem _ hq, hqs⟩)
              · have hstep : dayStep acc p = (acc.1 + (p.timestamp - st), none) := by
                  simp [dayStep, hpt, hacc2, hst]
                rw [hstep]
                have hle : st ≤ p.timestamp :=
                  hacc st hacc2 p (List.mem_cons_self ..)
                obtain ⟨ha, hb⟩ := ih (acc.1 + (p.timestamp - st), none) hrest (by simp)
                refine ⟨le_trans (by omega) ha, fun s hres => ?_⟩
                rcases hb s hres with h | h
                · cases h
                · exact Or.inr (by
                    obtain ⟨q, hq, hqs⟩ := h
                    exact ⟨q, List.mem_cons_of_mem _ hq, hqs⟩)

/-- A timestamp-sorted day none of whose punches lies in the future of
`now` accumulates a non-negative millisecond total. -/
lemma dayTotalMs_nonneg {now d : Int} {ps : List PunchEntry}
    (hs : ps.Pairwise punchLE) (hn : ∀ p ∈ ps, p.timestamp ≤ now) :
    0 ≤ dayTotalMs now d ps := by
  obtain ⟨ha, hb⟩ := foldl_dayStep_aux ps (0, none) hs (by simp)
  rw [dayTotalMs]
  cases hres : (ps.foldl dayStep (0, none)).2 with
  | none => simpa [hres] using ha
  | some st =>
      simp only [hres]
      split
      · rcases hb st hres with h | ⟨q, hq, hqs⟩
        · cases h
        · have : st ≤ now := hqs ▸ hn q hq
          omega
      · simpa using ha

/-- If every `IN` punch of a day has timestamp `0`, the fold state stays
at `(0, none)` or `(0, some 0)` and the day accumulates nothing: a `0`
start never passes the truthiness guard. -/
lemma dayTotalMs_eq_zero_of_in_zero {now d : Int} {ps : List PunchEntry}
    (h : ∀ p ∈ ps, p.type = .IN → p.timestamp = 0) :
    dayTotalMs now d ps = 0 := by
  have haux : ∀ (l : List PunchEntry) (acc : Int × Option Int),
      (acc = (0, none) ∨ acc = (0, some 0)) →
      (∀ p ∈ l, p.type = .IN → p.timestamp = 0) →
      (l.foldl dayStep acc = (0, none) ∨ l.foldl dayStep acc = (0, some 0)) := by
    intro l
    induction l with
    | nil => intro acc hacc _; simpa using hacc
    | cons p rest ih =>
        intro acc hacc hl
        rw [List.foldl_cons]
        cases hpt : p.type with
        | IN =>
            have hts : p.timestamp = 0 := hl p (List.mem_cons_self ..) hpt
            have hstep : dayStep acc p = (acc.1, some 0) := by
              simp [dayStep, hpt, hts]
            have hacc1 : acc.1 = 0 := by rcases hacc with rfl | rfl <;> rfl
            rw [hstep, hacc1]
            exact ih _ (Or.inr rfl) (fun q hq => hl q (List.mem_cons_of_mem _ hq))
        | OUT =>
            have hstep : dayStep acc p = acc := by
              rcases hacc with rfl | rfl <;> simp [dayStep, hpt]
            rw [hstep]
            exact ih _ hacc (fun q hq => hl q (List.mem_cons_of_mem _ hq))
  rw [dayTotalMs]
  rcases haux ps (0, none) (Or.inl rfl) h with h1 | h1 <;> simp [h1]

/-- A day consisting only of `OUT` punches accumulates nothing. -/
lemma dayTotalMs_eq_zero_of_all_out {now d : Int} {ps : List PunchEntry}
    (h : ∀ p ∈ ps, p.type = .OUT) : dayTotalMs now d ps = 0 := by
  have haux : ∀ (l : List PunchEntry),
      (∀ p ∈ l, p.type = .OUT) → l.foldl dayStep (0, none) = (0, none) := by
    intro l
    induction l with
    | nil => intro _; rfl
    | cons p rest ih =>
        intro hl
        rw [List.foldl_cons]
        have hstep : dayStep (0, none) p = (0, none) := by
          simp [dayStep, hl p (List.mem_cons_self ..)]
        rw [hstep]
        exact ih (fun q hq => hl q (List.mem_cons_of_mem _ hq))
  rw [dayTotalMs, haux ps h]

/-! Helper lemmas about rounding and sums. -/

lemma round2_nonneg {q : ℚ} (h : 0 ≤ q) : 0 ≤ round2 q := by
  rw [round2]
  have hfl : (0 : Int) ≤ ⌊q * 100 + 1 / 2⌋ := by
    rw [Int.le_floor]
    have h100 : (0 : ℚ) ≤ q * 100 := by positivity
    push_cast
    linarith
  apply div_nonneg
  · exact_mod_cast hfl
  · norm_num

lemma msToHours_nonneg {ms : Int} (h : 0 ≤ ms) : 0 ≤ msToHours ms := by
  rw [msToHours]
  apply div_nonneg
  · exact_mod_cast h
  · norm_num [msPerHour]

lemma foldl_add_totalHours (ws : List WorkDay) (a : ℚ) :
    ws.foldl (fun acc c => acc + c.totalHours) a = a + (ws.map WorkDay.totalHours).sum := by
  induction ws generalizing a with
  | nil => simp
  | cons w rest ih => simp [ih, add_assoc]

/-! Helper definitions and lemmas for matched IN-OUT pairs. -/

/-- The event sequence of a list of matched `(IN, OUT)` pairs. -/
def pairEvents : List (PunchEntry × PunchEntry) → List PunchEntry
  | [] => []
  | pr :: rest => pr.1 :: pr.2 :: pairEvents rest

/-- Sum of `(OUT - IN)` milliseconds over matched pairs. -/
def pairMs (prs : List (PunchEntry × PunchEntry)) : Int :=
  (prs.map (fun pr => pr.2.timestamp - pr.1.timestamp)).sum

lemma foldl_dayStep_pairEvents :
    ∀ (prs : List (PunchEntry × PunchEntry)) (a : Int),
      (∀ pr ∈ prs, pr.1.type = .IN ∧ pr.2.type = .OUT ∧ pr.1.timestamp ≠ 0) →
      (pairEvents prs).foldl dayStep (a, none) = (a + pairMs prs, none) := by
  intro prs
  induction prs with
  | nil => intro a _; simp [pairEvents, pairMs]
  | cons pr rest ih =>
      intro a h
      obtain ⟨hin, hout, hne⟩ := h pr (List.mem_cons_self ..)
      have h1 : dayStep (a, none) pr.1 = (a, some pr.1.timestamp) := by
        simp [dayStep, hin]
      have h2 : dayStep (a, some pr.1.timestamp) pr.2 =
          (a + (pr.2.timestamp - pr.1.timestamp), none) := by
        simp [dayStep, hout, hne]
      rw [pairEvents, List.foldl_cons, h1, List.foldl_cons, h2,
        ih _ (fun q hq => h q (List.mem_cons_of_mem _ hq))]
      simp [pairMs, add_assoc]

/-! Claim theorems. -/

/-- C1 (amended): for every event list whose events on calendar date `d`
form matched IN-then-OUT pairs *whose IN timestamps are nonzero*, the
WorkDay for `d` has `totalHours` equal to the sum of `(OUT - IN)`
milliseconds over the pairs, divided by 3,600,000 and rounded to
2 decimal places.  (The nonzero proviso is forced by the truthiness
guard refuted in `claim_C1_counterexample`.) -/
theorem claim_C1_paired_day_total (now d : Int) (l : List PunchEntry)
    (prs : List (PunchEntry × PunchEntry))
    (hb : (sortPunches l).filter (fun p => decide (dateOf p.timestamp = d)) = pairEvents prs)
    (hprs : ∀ pr ∈ prs, pr.1.type = PunchType.IN ∧ pr.2.type = PunchType.OUT ∧
      pr.1.timestamp ≠ 0) :
    ∀ wd ∈ workDaysData now l, wd.date = d →
      wd.totalHours = round2 (msToHours (pairMs prs)) := by
  intro wd hwd hd
  obtain ⟨hp, ht⟩ := mem_workDaysData hwd
  rw [ht, hp, hd, hb]
  simp only [dayTotalHours, dayTotalMs]
  rw [foldl_dayStep_pairEvents prs 0 hprs]
  simp

/-- Witness for C1: the spec scenario `[IN@09:00, OUT@12:00, IN@13:00,
OUT@17:00]` on day 0 yields a day total of exactly 7.00 hours. -/
theorem claim_C1_witness :
    (WorkDay.mk 0
      [⟨"a", PunchType.IN, 32400000⟩, ⟨"b", PunchType.OUT, 43200000⟩,
       ⟨"c", PunchType.IN, 46800000⟩, ⟨"d", PunchType.OUT, 61200000⟩]
      (dayTotalHours 604800000 0
        [⟨"a", PunchType.IN, 32400000⟩, ⟨"b", PunchType.OUT, 43200000⟩,
         ⟨"c", PunchType.IN, 46800000⟩, ⟨"d", PunchType.OUT, 61200000⟩])).totalHours = 7 := by
  have h := claim_C1_paired_day_total 604800000 0
      [⟨"a", PunchType.IN, 32400000⟩, ⟨"b", PunchType.OUT, 43200000⟩,
       ⟨"c", PunchType.IN, 46800000⟩, ⟨"d", PunchType.OUT, 61200000⟩]
      [(⟨"a", PunchType.IN, 32400000⟩, ⟨"b", PunchType.OUT, 43200000⟩),
       (⟨"c", PunchType.IN, 46800000⟩, ⟨"d", PunchType.OUT, 61200000⟩)]
      (by decide) (by decide) _ (List.mem_singleton.mpr rfl) rfl
  have h7 : round2 (msToHours (pairMs
      [(⟨"a", PunchType.IN, 32400000⟩, ⟨"b", PunchType.OUT, 43200000⟩),
       (⟨"c", PunchType.IN, 46800000⟩, ⟨"d", PunchType.OUT, 61200000⟩)])) = 7 := by
    norm_num [pairMs, round2, msToHours, msPerHour]
  exact h.trans h7

/-- Counterexample for C1 as stated: the matched pair `(IN@0,
OUT@3600000)` on day 0 yields a day total of 0, not the claimed 1.00,
because the `0` start fails the truthiness guard. -/
theorem claim_C1_counterexample :
    (workDaysData 172800000 [⟨"a", PunchType.IN, 0⟩, ⟨"b", PunchType.OUT, 3600000⟩]).map
      WorkDay.totalHours = [0] ∧
    round2 (msToHours (3600000 - 0)) = 1 ∧ (0 : ℚ) ≠ 1 := by
  refine ⟨?_, by norm_num [round2, msToHours, msPerHour], by norm_num⟩
  have hms : dayTotalMs 172800000 0
      [⟨"a", PunchType.IN, 0⟩, ⟨"b", PunchType.OUT, 3600000⟩] = 0 := by decide
  have hw : workDaysData 172800000 [⟨"a", PunchType.IN, 0⟩, ⟨"b", PunchType.OUT, 3600000⟩] =
      [WorkDay.mk 0 [⟨"a", PunchType.IN, 0⟩, ⟨"b", PunchType.OUT, 3600000⟩]
        (dayTotalHours 172800000 0
          [⟨"a", PunchType.IN, 0⟩, ⟨"b", PunchType.OUT, 3600000⟩])] := rfl
  rw [hw]
  norm_num [dayTotalHours, hms, msToHours, round2]

/-- C2 (amended): if a day's fold ends with an open session start `s`,
then when `s ≠ 0` and the day is the current (UTC) date of `now` the
day's total credits `now - s` on top of the accumulated milliseconds,
and when the day is a different date (in particular a past one) nothing
is added for the dangling session.  (The `s ≠ 0` proviso is forced by
the truthiness guard refuted in `claim_C2_counterexample`.) -/
theorem claim_C2_open_session_credit (now : Int) (l : List PunchEntry) :
    ∀ wd ∈ workDaysData now l, ∀ (ms s : Int),
      wd.punches.foldl dayStep (0, none) = (ms, some s) →
      ((s ≠ 0 → wd.date = dateOf now →
          wd.totalHours = round2 (msToHours (ms + (now - s)))) ∧
       (wd.date ≠ dateOf now → wd.totalHours = round2 (msToHours ms))) := by
  intro wd hwd ms s hfold
  obtain ⟨-, ht⟩ := mem_workDaysData hwd
  constructor
  · intro hs hd
    rw [ht]
    simp only [dayTotalHours, dayTotalMs]
    rw [hfold]
    simp [hs, hd]
  · intro hd
    rw [ht]
    simp only [dayTotalHours, dayTotalMs]
    rw [hfold]
    simp [hd]

/-- Witness for C2: the spec scenario `[IN@09:00]` with `now` at 11:00
the same day yields a day total of 2.00 hours. -/
theorem claim_C2_witness :
    (WorkDay.mk 0 [⟨"a", PunchType.IN, 32400000⟩]
      (dayTotalHours 39600000 0 [⟨"a", PunchType.IN, 32400000⟩])).totalHours = 2 := by
  have h := (claim_C2_open_session_credit 39600000 [⟨"a", PunchType.IN, 32400000⟩]
      _ (List.mem_singleton.mpr rfl) 0 32400000 rfl).1 (by decide) rfl
  have h2 : round2 (msToHours (0 + (39600000 - 32400000))) = 2 := by
    norm_num [round2, msToHours, msPerHour]
  exact h.trans h2

/-- Counterexample for C2 as stated: a session opened at timestamp
exactly `0` on the current date is NOT credited with `now - start`; the
day total stays 0 instead of the claimed 1.00. -/
theorem claim_C2_counterexample :
    ([⟨"c", PunchType.IN, 0⟩] : List PunchEntry).foldl dayStep (0, none) = (0, some 0) ∧
    dateOf 0 = dateOf 3600000 ∧
    (workDaysData 3600000 [⟨"c", PunchType.IN, 0⟩]).map WorkDay.totalHours = [0] ∧
    round2 (msToHours (0 + (3600000 - 0))) = 1 ∧ (0 : ℚ) ≠ 1 := by
  refine ⟨rfl, rfl, ?_, by norm_num [round2, msToHours, msPerHour], by norm_num⟩
  have hms : dayTotalMs 3600000 0 [⟨"c", PunchType.IN, 0⟩] = 0 := by decide
  have hw : workDaysData 3600000 [⟨"c", PunchType.IN, 0⟩] =
      [WorkDay.mk 0 [⟨"c", PunchType.IN, 0⟩]
        (dayTotalHours 3600000 0 [⟨"c", PunchType.IN, 0⟩])] := rfl
  rw [hw]
  norm_num [dayTotalHours, hms, msToHours, round2]

/-- C3 (amended): on an OUT event, a *nonzero* open start `st` is
closed, adding exactly `timestamp - st`; an open start of exactly `0`
makes the OUT a no-op (truthiness guard), and with no open start the
OUT is a no-op; a day consisting of a lone OUT totals 0 hours.  (The
zero-start case is the deviation refuted in
`claim_C3_counterexample`.) -/
theorem claim_C3_out_event_step :
    (∀ (ms st : Int) (p : PunchEntry), p.type = PunchType.OUT →
      ((st ≠ 0 → dayStep (ms, some st) p = (ms + (p.timestamp - st), none)) ∧
       dayStep (ms, some 0) p = (ms, some 0) ∧
       dayStep (ms, none) p = (ms, none))) ∧
    (∀ (i : String) (t now : Int),
      ∀ wd ∈ workDaysData now [⟨i, PunchType.OUT, t⟩], wd.totalHours = 0) := by
  constructor
  · intro ms st p hp
    exact ⟨fun hst => by simp [dayStep, hp, hst], by simp [dayStep, hp], by simp [dayStep, hp]⟩
  · intro i t now wd hwd
    obtain ⟨hp, ht⟩ := mem_workDaysData hwd
    have hall : ∀ x ∈ wd.punches, x.type = PunchType.OUT := by
      intro x hx
      rw [hp] at hx
      have h2 := mem_sortPunches (List.mem_filter.1 hx).1
      simp at h2
      rw [h2]
    rw [ht]
    simp only [dayTotalHours]
    rw [dayTotalMs_eq_zero_of_all_out hall]
    norm_num [msToHours, round2]

/-- Witness for C3: an OUT at 9 closing an open start 5 adds exactly 4
milliseconds and clears the start. -/
theorem claim_C3_witness :
    dayStep (0, some 5) ⟨"w", PunchType.OUT, 9⟩ = (4, none) := by
  have h := (claim_C3_out_event_step.1 0 5 ⟨"w", PunchType.OUT, 9⟩ rfl).1 (by decide)
  simpa using h

/-- Counterexample for C3 as stated: an OUT facing the open session
start `0` adds nothing, so the day `[IN@0, OUT@7200000]` totals 0
instead of the claimed 2.00. -/
theorem claim_C3_counterexample :
    (workDaysData 259200000 [⟨"a", PunchType.IN, 0⟩, ⟨"b", PunchType.OUT, 7200000⟩]).map
      WorkDay.totalHours = [0] ∧
    round2 (msToHours (7200000 - 0)) = 2 ∧ (0 : ℚ) ≠ 2 := by
  refine ⟨?_, by norm_num [round2, msToHours, msPerHour], by norm_num⟩
  have hms : dayTotalMs 259200000 0
      [⟨"a", PunchType.IN, 0⟩, ⟨"b", PunchType.OUT, 7200000⟩] = 0 := by decide
  have hw : workDaysData 259200000 [⟨"a", PunchType.IN, 0⟩, ⟨"b", PunchType.OUT, 7200000⟩] =
      [WorkDay.mk 0 [⟨"a", PunchType.IN, 0⟩, ⟨"b", PunchType.OUT, 7200000⟩]
        (dayTotalHours 259200000 0
          [⟨"a", PunchType.IN, 0⟩, ⟨"b", PunchType.OUT, 7200000⟩])] := rfl
  rw [hw]
  norm_num [dayTotalHours, hms, msToHours, round2]

/-- C4 (amended): every punch is bucketed under the work day of its
*UTC* calendar date (`toISOString`), and every punch of the input list
appears in the bucket of its UTC date.  The claim's "local time zone"
reading is refuted in `claim_C4_counterexample`. -/
theorem claim_C4_grouping_by_utc_date (now : Int) (l : List PunchEntry) :
    (∀ wd ∈ workDaysData now l, ∀ p ∈ wd.punches, dateOf p.timestamp = wd.date) ∧
    (∀ p ∈ l, ∃ wd ∈ workDaysData now l, wd.date = dateOf p.timestamp ∧ p ∈ wd.punches) := by
  constructor
  · intro wd hwd p hp
    have h1 := (mem_workDaysData hwd).1
    rw [h1] at hp
    have h2 := (List.mem_filter.1 hp).2
    simpa using h2
  · intro p hp
    exact workDay_mem_of_mem_punch hp

/-- Witness for C4: the punch at 84,600,000 ms (23:30 UTC of day 0) is
bucketed under date 0. -/
theorem claim_C4_witness :
    dateOf (PunchEntry.mk ("a") PunchType.IN 84600000).timestamp =
      (WorkDay.mk 0 [⟨"a", PunchType.IN, 84600000⟩]
        (dayTotalHours 0 0 [⟨"a", PunchType.IN, 84600000⟩])).date :=
  (claim_C4_grouping_by_utc_date 0 [⟨"a", PunchType.IN, 84600000⟩]).1 _
    (List.mem_singleton.mpr rfl) _ (List.mem_singleton.mpr rfl)

/-- Counterexample for C4 as stated: in a local time zone 60 minutes
east of UTC, the punch at 84,600,000 ms falls on local date 1, yet the
code buckets it under date 0 (its UTC date). -/
theorem claim_C4_counterexample :
    (workDaysData 0 [⟨"a", PunchType.IN, 84600000⟩]).map WorkDay.date = [0] ∧
    localDateOf 60 84600000 = 1 ∧ (0 : Int) ≠ 1 := by
  exact ⟨rfl, by decide, by decide⟩

/-- C5 (amended): the weekly statistics are computed over exactly the
work days whose date, parsed at *UTC* midnight, lies strictly less than
7×24 hours of elapsed milliseconds before `now`; the week total is the
sum of their `totalHours` rounded to 1 decimal, the average is that sum
divided by the count rounded to 1 decimal, and both are 0 (no division
fault) when the filtered set is empty.  The claim's "local midnight"
reading is refuted in `claim_C5_counterexample`. -/
theorem claim_C5_weekly_stats (now : Int) (l : List PunchEntry) :
    ((stats now l).totalHoursThisWeek =
      round1 ((((workDaysData now l).filter
        (fun d => decide (now - dateMsUTC d.date < weekMs))).map WorkDay.totalHours).sum)) ∧
    (((workDaysData now l).filter (fun d => decide (now - dateMsUTC d.date < weekMs))) ≠ [] →
      (stats now l).averageDailyHours =
        round1 (((((workDaysData now l).filter
            (fun d => decide (now - dateMsUTC d.date < weekMs))).map WorkDay.totalHours).sum) /
          ((((workDaysData now l).filter
            (fun d => decide (now - dateMsUTC d.date < weekMs))).length : ℚ)))) ∧
    (((workDaysData now l).filter (fun d => decide (now - dateMsUTC d.date < weekMs))) = [] →
      (stats now l).averageDailyHours = 0 ∧ (stats now l).totalHoursThisWeek = 0) := by
  have hTot : (stats now l).totalHoursThisWeek =
      round1 (((workDaysData now l).filter
        (fun d => decide (now - dateMsUTC d.date < weekMs))).foldl
          (fun acc c => acc + c.totalHours) 0) := rfl
  have hAvg : (stats now l).averageDailyHours =
      round1 (if 0 < ((workDaysData now l).filter
          (fun d => decide (now - dateMsUTC d.date < weekMs))).length then
        (((workDaysData now l).filter
          (fun d => decide (now - dateMsUTC d.date < weekMs))).foldl
            (fun acc c => acc + c.totalHours) 0) /
          ((((workDaysData now l).filter
            (fun d => decide (now - dateMsUTC d.date < weekMs))).length : ℚ))
        else 0) := rfl
  refine ⟨?_, ?_, ?_⟩
  · rw [hTot, foldl_add_totalHours, zero_add]
  · intro h
    rw [hAvg, if_pos (List.length_pos.mpr h), foldl_add_totalHours, zero_add]
  · intro h
    constructor
    · rw [hAvg, h]
      norm_num [round1]
    · rw [hTot, h]
      norm_num [round1]

/-- Witness for C5: an empty punch list yields an empty trailing-7-day
window, a week total of 0 and an average of 0 (no division fault). -/
theorem claim_C5_witness :
    (stats 0 []).averageDailyHours = 0 ∧ (stats 0 []).totalHoursThisWeek = 0 :=
  (claim_C5_weekly_stats 0 []).2.2 rfl

/-- Counterexample for C5 as stated: in a local time zone 60 minutes
east of UTC, at `now` = 603,000,000 the day-0 work day is outside the
local-midnight 7-day window (so the claimed week total would be 0), yet
the code includes it and reports 1 hour. -/
theorem claim_C5_counterexample :
    (stats 603000000
      [⟨"a", PunchType.IN, 3600000⟩, ⟨"b", PunchType.OUT, 7200000⟩]).totalHoursThisWeek = 1 ∧
    thisWeekLocal 60 603000000
      [⟨"a", PunchType.IN, 3600000⟩, ⟨"b", PunchType.OUT, 7200000⟩] = [] ∧
    (1 : ℚ) ≠ 0 := by
  refine ⟨?_, rfl, by norm_num⟩
  have hms : dayTotalMs 603000000 0
      [⟨"a", PunchType.IN, 3600000⟩, ⟨"b", PunchType.OUT, 7200000⟩] = 3600000 := by decide
  have hth : dayTotalHours 603000000 0
      [⟨"a", PunchType.IN, 3600000⟩, ⟨"b", PunchType.OUT, 7200000⟩] = 1 := by
    rw [dayTotalHours, hms]
    norm_num [msToHours, round2, msPerHour]
  have hTot : (stats 603000000
      [⟨"a", PunchType.IN, 3600000⟩, ⟨"b", PunchType.OUT, 7200000⟩]).totalHoursThisWeek =
      round1 (((workDaysData 603000000
        [⟨"a", PunchType.IN, 3600000⟩, ⟨"b", PunchType.OUT, 7200000⟩]).filter
        (fun d => decide (603000000 - dateMsUTC d.date < weekMs))).foldl
          (fun acc c => acc + c.totalHours) 0) := rfl
  have hf : ((workDaysData 603000000
      [⟨"a", PunchType.IN, 3600000⟩, ⟨"b", PunchType.OUT, 7200000⟩]).filter
      (fun d => decide (603000000 - dateMsUTC d.date < weekMs))) =
      [WorkDay.mk 0 [⟨"a", PunchType.IN, 3600000⟩, ⟨"b", PunchType.OUT, 7200000⟩]
        (dayTotalHours 603000000 0
          [⟨"a", PunchType.IN, 3600000⟩, ⟨"b", PunchType.OUT, 7200000⟩])] := rfl
  rw [hTot, hf]
  simp [hth]
  norm_num [round1]

/-- C6 (amended): provided no punch timestamp lies in the future of
`now`, every work day's `totalHours` is non-negative.  The unrestricted
claim is refuted in `claim_C6_counterexample` (a future IN on the
current date makes the trailing credit negative). -/
theorem claim_C6_total_nonneg (now : Int) (l : List PunchEntry)
    (h : ∀ p ∈ l, p.timestamp ≤ now) :
    ∀ wd ∈ workDaysData now l, 0 ≤ wd.totalHours := by
  intro wd hwd
  obtain ⟨hp, ht⟩ := mem_workDaysData hwd
  rw [ht]
  simp only [dayTotalHours]
  apply round2_nonneg
  apply msToHours_nonneg
  apply dayTotalMs_nonneg
  · rw [hp]
    exact (sortPunches_pairwise l).sublist (List.filter_sublist _)
  · intro p hpp
    rw [hp] at hpp
    exact h p (mem_sortPunches (List.mem_filter.1 hpp).1)

/-- Witness for C6: a past one-hour session has a non-negative total. -/
theorem claim_C6_witness :
    0 ≤ (WorkDay.mk 0 [⟨"a", PunchType.IN, 3600000⟩, ⟨"b", PunchType.OUT, 7200000⟩]
      (dayTotalHours 90000000 0
        [⟨"a", PunchType.IN, 3600000⟩, ⟨"b", PunchType.OUT, 7200000⟩])).totalHours :=
  claim_C6_total_nonneg 90000000
    [⟨"a", PunchType.IN, 3600000⟩, ⟨"b", PunchType.OUT, 7200000⟩]
    (by decide) _ (List.mem_singleton.mpr rfl)

/-- Counterexample for C6 as stated: a lone IN one hour in the future of
`now` on the current UTC date yields `totalHours = -1`. -/
theorem claim_C6_counterexample :
    (workDaysData 0 [⟨"a", PunchType.IN, 3600000⟩]).map WorkDay.totalHours = [-1] ∧
    (-1 : ℚ) < 0 := by
  refine ⟨?_, by norm_num⟩
  have hms : dayTotalMs 0 0 [⟨"a", PunchType.IN, 3600000⟩] = -3600000 := by decide
  have hw : workDaysData 0 [⟨"a", PunchType.IN, 3600000⟩] =
      [WorkDay.mk 0 [⟨"a", PunchType.IN, 3600000⟩]
        (dayTotalHours 0 0 [⟨"a", PunchType.IN, 3600000⟩])] := rfl
  rw [hw]
  norm_num [dayTotalHours, hms, msToHours, round2, msPerHour]

/-- C7: the derived status is PUNCHED_IN iff the punch list is
non-empty and its first element (the most recently created event) has
kind IN; in every other case, including the empty list, the status is
PUNCHED_OUT. -/
theorem claim_C7_status_from_head (l : List PunchEntry) :
    (currentStatus l = Status.PUNCHED_IN ↔
      l.head?.map PunchEntry.type = some PunchType.IN) ∧
    (currentStatus l = Status.PUNCHED_OUT ↔
      ¬ l.head?.map PunchEntry.type = some PunchType.IN) := by
  cases l with
  | nil => simp [currentStatus]
  | cons p rest =>
      by_cases h : p.type = PunchType.IN <;> simp [currentStatus, h]

/-- C8 (amended): `getWorkInsights` never propagates an error: any
exception inside the `try` block yields exactly the fixed fallback
insight (which itself conforms to the expected shape); but a response
whose text parses successfully is returned *as-is* with no shape
validation, and an empty response text yields the empty object `{}`.
The claim's "any deviation from the expected shape yields the fallback"
is refuted in `claim_C8_counterexample`. -/
theorem claim_C8_insight_fallback :
    (∀ wds : List WorkDay, getWorkInsights wds ServiceOutcome.throwErr = fallbackInsight) ∧
    expectedInsightShape fallbackInsight = true ∧
    (∀ (wds : List WorkDay) (j : Json), getWorkInsights wds (ServiceOutcome.okText j) = j) ∧
    (∀ wds : List WorkDay, getWorkInsights wds ServiceOutcome.okEmptyText = Json.obj []) :=
  ⟨fun _ => rfl, rfl, fun _ _ => rfl, fun _ => rfl⟩

/-- Counterexample for C8 as stated: a successful request whose
response text is empty is parsed as `{}`, which deviates from the
expected shape, yet is returned unchanged instead of the fallback. -/
theorem claim_C8_counterexample :
    getWorkInsights [] ServiceOutcome.okEmptyText = Json.obj [] ∧
    Json.obj [] ≠ fallbackInsight ∧
    expectedInsightShape (Json.obj []) = false := by
  refine ⟨rfl, ?_, rfl⟩
  intro h
  simp [fallbackInsight] at h

/-- C9: persisting the punch list under the single storage key and
loading it back yields an identical ordered event list. -/
theorem claim_C9_storage_roundtrip (l : List PunchEntry) :
    loadPunches (persistPunches l) = l := by
  have hone : ∀ p : PunchEntry, jsonToPunch (punchToJson p) = some p := by
    intro p
    obtain ⟨i, t, ts⟩ := p
    cases t <;> rfl
  have hmap : ∀ xs : List PunchEntry, jsonArrToPunches (xs.map punchToJson) = some xs := by
    intro xs
    induction xs with
    | nil => rfl
    | cons p rest ih => simp [jsonArrToPunches, hone, ih]
  show (jsonToPunches (punchesToJson l)).getD [] = l
  rw [punchesToJson]
  simp [jsonToPunches, hmap l]

/-- C10: an OUT event facing the zero-valued open-session start is
treated as if no session were open, and the day `[IN@0, OUT@t]` has
`totalHours = 0` for every `t`, not `t / 3,600,000` hours. -/
theorem claim_C10_zero_start_ignored (now t : Int) (i1 i2 : String) :
    (∀ (ms : Int) (p : PunchEntry), p.type = PunchType.OUT →
      dayStep (ms, some 0) p = (ms, some 0)) ∧
    (∀ wd ∈ workDaysData now [⟨i1, PunchType.IN, 0⟩, ⟨i2, PunchType.OUT, t⟩],
      wd.totalHours = 0) := by
  constructor
  · intro ms p hp
    simp [dayStep, hp]
  · intro wd hwd
    obtain ⟨hp, ht⟩ := mem_workDaysData hwd
    have hzero : ∀ x ∈ wd.punches, x.type = PunchType.IN → x.timestamp = 0 := by
      intro x hx hxt
      rw [hp] at hx
      have h2 := mem_sortPunches (List.mem_filter.1 hx).1
      rcases List.mem_cons.1 h2 with rfl | h3
      · rfl
      · rcases List.mem_cons.1 h3 with rfl | h4
        · simp at hxt
        · cases h4
    rw [ht]
    simp only [dayTotalHours]
    rw [dayTotalMs_eq_zero_of_in_zero hzero]
    norm_num [msToHours, round2]

/-- Witness for C10: the day `[IN@0, OUT@10800000]` totals 0 hours, not
3 hours. -/
theorem claim_C10_witness :
    (WorkDay.mk 0 [⟨"a", PunchType.IN, 0⟩, ⟨"b", PunchType.OUT, 10800000⟩]
      (dayTotalHours 0 0
        [⟨"a", PunchType.IN, 0⟩, ⟨"b", PunchType.OUT, 10800000⟩])).totalHours = 0 :=
  (claim_C10_zero_start_ignored 0 10800000 ("a") ("b")).2 _ (List.mem_singleton.mpr rfl)

end PunchPro
